import Mathlib

/-!
Shallow embedding of the diagnostic script `src/test-demucs.py`.

The script builds a silent stereo buffer `torch.zeros(2, 44100)`, prints the
available torchaudio backends and the current one, then for each available
backend tries to select it and save the buffer to `test_output.wav`, deleting
the file on success, catching any per-backend exception locally.  After the
loop it writes the transposed buffer directly with `soundfile`, removes the
file, and prints a completion line; the whole body sits inside one outer
`try/except` that prints `Error: ...`.

External library calls can fail in environment-dependent ways, so the
embedding takes an `Env` oracle saying, for each call site, whether the call
raises and with which message.  The interpreter threads a `PState` holding
the printed lines (one constructor per `print` in the source), the trace of
external calls, whether `test_output.wav` currently exists, and the active
torchaudio backend.  Exception propagation of the Python `try/except`
nesting is modelled explicitly: the inner handler is part of the loop body,
the outer handler wraps the whole body.
-/

namespace TestDemucs

/-- Element type tag of a numeric array; torch's default dtype is float32. -/
inductive DType where
  | float32
  | float64
  deriving DecidableEq

/-- In-memory 2-D numeric array (torch tensor / numpy array): a shape and an
entry function; all values in this program are exact zeros. -/
structure Tensor where
  rows : Nat
  cols : Nat
  entry : Nat → Nat → Int
  dtype : DType

/-- Source line 12, `torch.zeros(2, sample_rate)`: all entries zero, default
float32 dtype. -/
def torchZeros (r c : Nat) : Tensor :=
  { rows := r, cols := c, entry := fun _ _ => 0, dtype := DType.float32 }

/-- Source line 32, `.numpy().T`: the transposed view of an array. -/
def Tensor.transpose (t : Tensor) : Tensor :=
  { rows := t.cols, cols := t.rows, entry := fun i j => t.entry j i, dtype := t.dtype }

/-- Source line 11: `sample_rate = 44100`. -/
def sample_rate : Nat := 44100

/-- Source line 12: `test_data = torch.zeros(2, sample_rate)`. -/
def test_data : Tensor := torchZeros 2 sample_rate

/-- Source line 13: `test_file = "test_output.wav"`. -/
def test_file : String := "test_output.wav"

/-- One constructor per `print` statement of the source, carrying the data
interpolated into the printed f-string. -/
inductive Line where
  | header
  | availableBackends (bs : List String)
  | currentBackend (b : String)
  | testingBackend (b : String)
  | backendSuccess (b : String)
  | backendError (b : String) (msg : String)
  | testingSoundfile
  | soundfileSuccess
  | completed
  | outerError (msg : String)
  deriving DecidableEq

/-- One constructor per external library call of the source; write and remove
calls record whether the call succeeded. -/
inductive Call where
  | constructBuffer (t : Tensor)
  | listBackends
  | getBackend
  | setBackend (b : String)
  | save (file : String) (data : Tensor) (sr : Nat) (ok : Bool)
  | removeFile (file : String) (ok : Bool)
  | sfWrite (file : String) (data : Tensor) (sr : Nat) (ok : Bool)

/-- Failure oracle for the external library calls: `none` means the call
succeeds, `some msg` means it raises an exception rendering as `msg`.  The
two `torchaudio.list_audio_backends()` call sites (lines 16 and 20) are
modelled by the same deterministic oracle. -/
structure Env where
  backends : List String
  current : String
  zerosFails : Option String
  listFails : Option String
  getFails : Option String
  setFails : String → Option String
  saveFails : String → Option String
  removeFails : String → Option String
  sfWriteFails : Option String
  sfRemoveFails : Option String

/-- Interpreter state: printed lines in order, trace of external calls in
order, whether `test_output.wav` exists, and the active torchaudio backend. -/
structure PState where
  out : List Line
  calls : List Call
  fileExists : Bool
  active : String

/-- Append one printed line. -/
def PState.emit (s : PState) (l : Line) : PState :=
  { s with out := s.out ++ [l] }

/-- Record one external call. -/
def PState.record (s : PState) (c : Call) : PState :=
  { s with calls := s.calls ++ [c] }

/-- Source lines 21-28, the body of one loop pass for backend `b`, inner
`try/except` included: print the testing line, attempt selection, attempt the
save (creating the file on success), print the success line, attempt removal;
any raise lands in the inner handler which prints the backend error line. -/
def tryBackend (env : Env) (b : String) (s : PState) : PState :=
  let s := s.emit (Line.testingBackend b)
  match env.setFails b with
  | some msg => (s.record (Call.setBackend b)).emit (Line.backendError b msg)
  | none =>
    let s := { s.record (Call.setBackend b) with active := b }
    match env.saveFails b with
    | some msg =>
      (s.record (Call.save test_file test_data sample_rate false)).emit (Line.backendError b msg)
    | none =>
      let s := { s.record (Call.save test_file test_data sample_rate true) with fileExists := true }
      let s := s.emit (Line.backendSuccess b)
      match env.removeFails b with
      | some msg => (s.record (Call.removeFile test_file false)).emit (Line.backendError b msg)
      | none => { s.record (Call.removeFile test_file true) with fileExists := false }

/-- Source lines 10-36, the body of the outer `try`: buffer construction, the
two diagnostic prints, the backend loop, and the direct soundfile attempt.
Returns the state together with `some msg` when an exception escapes the body
(buffer construction, enumeration query, direct write or final removal). -/
def probeBody (env : Env) (s : PState) : PState × Option String :=
  match env.zerosFails with
  | some msg => (s, some msg)
  | none =>
  let s := s.record (Call.constructBuffer test_data)
  match env.listFails with
  | some msg => (s, some msg)
  | none =>
  let s := (s.record Call.listBackends).emit (Line.availableBackends env.backends)
  match env.getFails with
  | some msg => (s, some msg)
  | none =>
  let s := (s.record Call.getBackend).emit (Line.currentBackend s.active)
  let s := s.record Call.listBackends
  let s := env.backends.foldl (fun s b => tryBackend env b s) s
  let s := s.emit Line.testingSoundfile
  match env.sfWriteFails with
  | some msg => (s.record (Call.sfWrite test_file test_data.transpose sample_rate false), some msg)
  | none =>
  let s := { s.record (Call.sfWrite test_file test_data.transpose sample_rate true) with fileExists := true }
  let s := s.emit Line.soundfileSuccess
  match env.sfRemoveFails with
  | some msg => (s.record (Call.removeFile test_file false), some msg)
  | none =>
  let s := { s.record (Call.removeFile test_file true) with fileExists := false }
  (s.emit Line.completed, none)

/-- State before the outer `try`: the header (line 8) is already printed, the
file does not pre-exist, the active backend is the environment's current one. -/
def initState (env : Env) : PState :=
  { out := [Line.header], calls := [], fileExists := false, active := env.current }

/-- The whole script: run the body under the outer `except Exception` handler
(lines 37-38), which prints the error line and swallows the exception.  The
second component is an exception escaping the process, `none` by construction. -/
def runProbe (env : Env) : PState × Option String :=
  match probeBody env (initState env) with
  | (s, none) => (s, none)
  | (s, some msg) => (s.emit (Line.outerError msg), none)

/-- Final observable state of the process. -/
def finalState (env : Env) : PState :=
  (runProbe env).1

/-- Process exit code: nonzero exactly when an exception escapes the script. -/
def exitCode (env : Env) : Nat :=
  match (runProbe env).2 with
  | none => 0
  | some _ => 1

/-! Decomposition of the run into per-iteration and per-phase pieces. -/

/-- Lines printed by one loop pass for backend `b`, as a function of the
oracle alone. -/
def iterLines (env : Env) (b : String) : List Line :=
  match env.setFails b with
  | some msg => [Line.testingBackend b, Line.backendError b msg]
  | none =>
    match env.saveFails b with
    | some msg => [Line.testingBackend b, Line.backendError b msg]
    | none =>
      match env.removeFails b with
      | some msg => [Line.testingBackend b, Line.backendSuccess b, Line.backendError b msg]
      | none => [Line.testingBackend b, Line.backendSuccess b]

/-- Calls recorded by one loop pass for backend `b`. -/
def iterCalls (env : Env) (b : String) : List Call :=
  match env.setFails b with
  | some _ => [Call.setBackend b]
  | none =>
    match env.saveFails b with
    | some _ => [Call.setBackend b, Call.save test_file test_data sample_rate false]
    | none =>
      [Call.setBackend b, Call.save test_file test_data sample_rate true,
       Call.removeFile test_file ((env.removeFails b).isNone)]

/-- File-existence after one loop pass for backend `b`, given existence before. -/
def iterFile (env : Env) (b : String) (f : Bool) : Bool :=
  match env.setFails b with
  | some _ => f
  | none =>
    match env.saveFails b with
    | some _ => f
    | none => (env.removeFails b).isSome

/-- Active backend after one loop pass for backend `b`, given the one before. -/
def iterActive (env : Env) (b : String) (a : String) : String :=
  match env.setFails b with
  | some _ => a
  | none => b

/-- Lines printed by the loop over the backend list `l`. -/
def linesOf (env : Env) : List String → List Line
  | [] => []
  | b :: l => iterLines env b ++ linesOf env l

/-- Calls recorded by the loop over the backend list `l`. -/
def callsOf (env : Env) : List String → List Call
  | [] => []
  | b :: l => iterCalls env b ++ callsOf env l

/-- File-existence after the loop over the backend list `l`. -/
def fileOf (env : Env) (l : List String) (f : Bool) : Bool :=
  l.foldl (fun f b => iterFile env b f) f

/-- Active backend after the loop over the backend list `l`: the last
successfully selected backend, or the incoming one if every selection failed. -/
def activeOf (env : Env) (l : List String) (a : String) : String :=
  l.foldl (fun a b => iterActive env b a) a

theorem tryBackend_spec (env : Env) (b : String) (s : PState) :
    tryBackend env b s =
      { out := s.out ++ iterLines env b, calls := s.calls ++ iterCalls env b,
        fileExists := iterFile env b s.fileExists, active := iterActive env b s.active } := by
  cases s with
  | mk out calls fe a =>
    cases hset : env.setFails b with
    | some msg =>
      simp [tryBackend, iterLines, iterCalls, iterFile, iterActive, hset,
        PState.emit, PState.record]
    | none =>
      cases hsave : env.saveFails b with
      | some msg =>
        simp [tryBackend, iterLines, iterCalls, iterFile, iterActive, hset, hsave,
          PState.emit, PState.record]
      | none =>
        cases hrm : env.removeFails b with
        | some msg =>
          simp [tryBackend, iterLines, iterCalls, iterFile, iterActive, hset, hsave, hrm,
            PState.emit, PState.record]
        | none =>
          simp [tryBackend, iterLines, iterCalls, iterFile, iterActive, hset, hsave, hrm,
            PState.emit, PState.record]

theorem loop_spec (env : Env) (l : List String) (s : PState) :
    l.foldl (fun s b => tryBackend env b s) s =
      { out := s.out ++ linesOf env l, calls := s.calls ++ callsOf env l,
        fileExists := fileOf env l s.fileExists, active := activeOf env l s.active } := by
  induction l generalizing s with
  | nil => simp [linesOf, callsOf, fileOf, activeOf]
  | cons b l ih =>
    rw [List.foldl_cons, tryBackend_spec, ih]
    simp [linesOf, callsOf, fileOf, activeOf]

/-- The probe reaches the backend loop: buffer construction and the two
environment queries succeed. -/
def Reaches (env : Env) : Prop :=
  env.zerosFails = none ∧ env.listFails = none ∧ env.getFails = none

/-- Lines printed from line 31 on (direct soundfile attempt and outer
handler), as a function of the oracle. -/
def directLines (env : Env) : List Line :=
  match env.sfWriteFails with
  | some msg => [Line.testingSoundfile, Line.outerError msg]
  | none =>
    match env.sfRemoveFails with
    | some msg => [Line.testingSoundfile, Line.soundfileSuccess, Line.outerError msg]
    | none => [Line.testingSoundfile, Line.soundfileSuccess, Line.completed]

/-- Calls recorded from line 32 on. -/
def directCalls (env : Env) : List Call :=
  match env.sfWriteFails with
  | some _ => [Call.sfWrite test_file test_data.transpose sample_rate false]
  | none =>
    [Call.sfWrite test_file test_data.transpose sample_rate true,
     Call.removeFile test_file ((env.sfRemoveFails).isNone)]

/-- File-existence after the direct attempt, given existence after the loop. -/
def directFile (env : Env) (f : Bool) : Bool :=
  match env.sfWriteFails with
  | some _ => f
  | none => (env.sfRemoveFails).isSome

/-- Calls recorded before the loop starts (lines 12-20). -/
def preludeCalls : List Call :=
  [Call.constructBuffer test_data, Call.listBackends, Call.getBackend, Call.listBackends]

/-- Lines printed before the loop starts (lines 8-17). -/
def preludeLines (env : Env) : List Line :=
  [Line.header, Line.availableBackends env.backends, Line.currentBackend env.current]

/-- Shape of the whole run when the probe reaches the loop: the three
prelude lines, the loop lines, then the direct-attempt lines; likewise for
the call trace; and no exception escapes the process. -/
theorem runProbe_reached (env : Env) (h : Reaches env) :
    finalState env =
      { out := preludeLines env ++ linesOf env env.backends ++ directLines env,
        calls := preludeCalls ++ callsOf env env.backends ++ directCalls env,
        fileExists := directFile env (fileOf env env.backends false),
        active := activeOf env env.backends env.current } ∧
    (runProbe env).2 = none := by
  obtain ⟨h1, h2, h3⟩ := h
  cases hsf : env.sfWriteFails with
  | some msg =>
    constructor
    · simp [finalState, runProbe, probeBody, h1, h2, h3, hsf, initState, loop_spec,
        PState.emit, PState.record, preludeLines, preludeCalls, directLines, directCalls,
        directFile]
    · simp [runProbe, probeBody, h1, h2, h3, hsf, initState, loop_spec,
        PState.emit, PState.record]
  | none =>
    cases hrm : env.sfRemoveFails with
    | some msg =>
      constructor
      · simp [finalState, runProbe, probeBody, h1, h2, h3, hsf, hrm, initState, loop_spec,
          PState.emit, PState.record, preludeLines, preludeCalls, directLines, directCalls,
          directFile]
      · simp [runProbe, probeBody, h1, h2, h3, hsf, hrm, initState, loop_spec,
          PState.emit, PState.record]
    | none =>
      constructor
      · simp [finalState, runProbe, probeBody, h1, h2, h3, hsf, hrm, initState, loop_spec,
          PState.emit, PState.record, preludeLines, preludeCalls, directLines, directCalls,
          directFile]
      · simp [runProbe, probeBody, h1, h2, h3, hsf, hrm, initState, loop_spec,
          PState.emit, PState.record]

/-- Shape of the run when buffer construction (line 12) raises. -/
theorem runProbe_zeros_fail (env : Env) (msg : String) (h : env.zerosFails = some msg) :
    finalState env =
      { out := [Line.header, Line.outerError msg], calls := [],
        fileExists := false, active := env.current } ∧
    (runProbe env).2 = none := by
  constructor <;>
    simp [finalState, runProbe, probeBody, h, initState, PState.emit, PState.record]

/-- Shape of the run when the backend enumeration query (line 16) raises. -/
theorem runProbe_list_fail (env : Env) (msg : String)
    (h1 : env.zerosFails = none) (h : env.listFails = some msg) :
    finalState env =
      { out := [Line.header, Line.outerError msg],
        calls := [Call.constructBuffer test_data],
        fileExists := false, active := env.current } ∧
    (runProbe env).2 = none := by
  constructor <;>
    simp [finalState, runProbe, probeBody, h1, h, initState, PState.emit, PState.record]

/-- Shape of the run when the current-backend query (line 17) raises. -/
theorem runProbe_get_fail (env : Env) (msg : String)
    (h1 : env.zerosFails = none) (h2 : env.listFails = none) (h : env.getFails = some msg) :
    finalState env =
      { out := [Line.header, Line.availableBackends env.backends, Line.outerError msg],
        calls := [Call.constructBuffer test_data, Call.listBackends],
        fileExists := false, active := env.current } ∧
    (runProbe env).2 = none := by
  constructor <;>
    simp [finalState, runProbe, probeBody, h1, h2, h, initState, PState.emit, PState.record]

/-! Classification and counting helpers. -/

/-- Per-backend outcome lines: the success line (line 25) and the inner
handler's error line (line 28). -/
def isOutcomeLine : Line → Bool
  | Line.backendSuccess _ => true
  | Line.backendError _ _ => true
  | _ => false

/-- Outer-handler error line (line 38). -/
def isOuterErrorLine : Line → Bool
  | Line.outerError _ => true
  | _ => false

/-- Backend selection call (line 23). -/
def isSetCall : Call → Bool
  | Call.setBackend _ => true
  | _ => false

/-- Per-backend save call (line 24). -/
def isSaveCall : Call → Bool
  | Call.save _ _ _ _ => true
  | _ => false

/-- Direct soundfile write call (line 32). -/
def isSfWriteCall : Call → Bool
  | Call.sfWrite _ _ _ _ => true
  | _ => false

/-- Successful write call, through either library. -/
def isOkWrite : Call → Bool
  | Call.save _ _ _ true => true
  | Call.sfWrite _ _ _ true => true
  | _ => false

/-- File removal call (lines 26 and 34). -/
def isRemoveCall : Call → Bool
  | Call.removeFile _ _ => true
  | _ => false

/-- Every successful write call in the trace is immediately followed by a
removal call. -/
def removalFollowsB : List Call → Bool
  | [] => true
  | c :: rest =>
    ((!isOkWrite c) || (match rest.head? with
      | some c2 => isRemoveCall c2
      | none => false)) && removalFollowsB rest

theorem mem_iterLines {env : Env} {b : String} {x : Line} (hx : x ∈ iterLines env b) :
    x = Line.testingBackend b ∨ x = Line.backendSuccess b ∨ ∃ m, x = Line.backendError b m := by
  cases hset : env.setFails b with
  | some msg => simp [iterLines, hset] at hx; tauto
  | none =>
    cases hsave : env.saveFails b with
    | some msg => simp [iterLines, hset, hsave] at hx; tauto
    | none =>
      cases hrm : env.removeFails b with
      | some msg => simp [iterLines, hset, hsave, hrm] at hx; tauto
      | none => simp [iterLines, hset, hsave, hrm] at hx; tauto

theorem mem_linesOf {env : Env} {x : Line} :
    ∀ {l : List String}, x ∈ linesOf env l → ∃ b, b ∈ l ∧ x ∈ iterLines env b := by
  intro l
  induction l with
  | nil => simp [linesOf]
  | cons b l ih =>
    intro hx
    rcases List.mem_append.1 hx with hx | hx
    · exact ⟨b, by simp, hx⟩
    · obtain ⟨b', hb', hx'⟩ := ih hx
      exact ⟨b', by simp [hb'], hx'⟩

theorem iterLines_mem_linesOf {env : Env} {b : String} :
    ∀ {l : List String}, b ∈ l → ∀ {x : Line}, x ∈ iterLines env b → x ∈ linesOf env l := by
  intro l
  induction l with
  | nil => simp
  | cons b' l ih =>
    intro hb x hx
    rcases List.mem_cons.1 hb with hb | hb
    · subst hb
      exact List.mem_append.2 (Or.inl hx)
    · exact List.mem_append.2 (Or.inr (ih hb hx))

theorem mem_iterCalls {env : Env} {b : String} {c : Call} (hc : c ∈ iterCalls env b) :
    c = Call.setBackend b ∨ (∃ ok, c = Call.save test_file test_data sample_rate ok) ∨
      ∃ ok, c = Call.removeFile test_file ok := by
  cases hset : env.setFails b with
  | some msg => simp [iterCalls, hset] at hc; tauto
  | none =>
    cases hsave : env.saveFails b with
    | some msg =>
      simp [iterCalls, hset, hsave] at hc
      rcases hc with hc | hc
      · exact Or.inl hc
      · exact Or.inr (Or.inl ⟨false, hc⟩)
    | none =>
      simp [iterCalls, hset, hsave] at hc
      rcases hc with hc | hc | hc
      · exact Or.inl hc
      · exact Or.inr (Or.inl ⟨true, hc⟩)
      · exact Or.inr (Or.inr ⟨_, hc⟩)

theorem mem_callsOf {env : Env} {c : Call} :
    ∀ {l : List String}, c ∈ callsOf env l → ∃ b, b ∈ l ∧ c ∈ iterCalls env b := by
  intro l
  induction l with
  | nil => simp [callsOf]
  | cons b l ih =>
    intro hc
    rcases List.mem_append.1 hc with hc | hc
    · exact ⟨b, by simp, hc⟩
    · obtain ⟨b', hb', hc'⟩ := ih hc
      exact ⟨b', by simp [hb'], hc'⟩

theorem countP_iterLines_outcome (env : Env) (b : String) (hrm : env.removeFails b = none) :
    (iterLines env b).countP isOutcomeLine = 1 := by
  cases hset : env.setFails b with
  | some msg => simp [iterLines, hset, List.countP_cons, isOutcomeLine]
  | none =>
    cases hsave : env.saveFails b with
    | some msg => simp [iterLines, hset, hsave, List.countP_cons, isOutcomeLine]
    | none => simp [iterLines, hset, hsave, hrm, List.countP_cons, isOutcomeLine]

theorem countP_linesOf_outcome (env : Env) :
    ∀ l : List String, (∀ b ∈ l, env.removeFails b = none) →
      (linesOf env l).countP isOutcomeLine = l.length := by
  intro l
  induction l with
  | nil => intro _; rfl
  | cons b l ih =>
    intro h
    rw [linesOf, List.countP_append, countP_iterLines_outcome env b (h b (by simp)),
      ih (fun b' hb' => h b' (by simp [hb']))]
    simp [Nat.add_comm]

theorem countP_iterCalls_sfWrite (env : Env) (b : String) :
    (iterCalls env b).countP isSfWriteCall = 0 := by
  cases hset : env.setFails b with
  | some msg => simp [iterCalls, hset, List.countP_cons, isSfWriteCall]
  | none =>
    cases hsave : env.saveFails b with
    | some msg => simp [iterCalls, hset, hsave, List.countP_cons, isSfWriteCall]
    | none => simp [iterCalls, hset, hsave, List.countP_cons, isSfWriteCall]

theorem countP_callsOf_sfWrite (env : Env) :
    ∀ l : List String, (callsOf env l).countP isSfWriteCall = 0 := by
  intro l
  induction l with
  | nil => rfl
  | cons b l ih =>
    rw [callsOf, List.countP_append, countP_iterCalls_sfWrite, ih]

theorem countP_iterLines_outerError (env : Env) (b : String) :
    (iterLines env b).countP isOuterErrorLine = 0 := by
  cases hset : env.setFails b with
  | some msg => simp [iterLines, hset, List.countP_cons, isOuterErrorLine]
  | none =>
    cases hsave : env.saveFails b with
    | some msg => simp [iterLines, hset, hsave, List.countP_cons, isOuterErrorLine]
    | none =>
      cases hrm : env.removeFails b with
      | some msg => simp [iterLines, hset, hsave, hrm, List.countP_cons, isOuterErrorLine]
      | none => simp [iterLines, hset, hsave, hrm, List.countP_cons, isOuterErrorLine]

theorem countP_linesOf_outerError (env : Env) :
    ∀ l : List String, (linesOf env l).countP isOuterErrorLine = 0 := by
  intro l
  induction l with
  | nil => rfl
  | cons b l ih =>
    rw [linesOf, List.countP_append, countP_iterLines_outerError, ih]

theorem iterFile_false (env : Env) (b : String) (hrm : env.removeFails b = none) :
    iterFile env b false = false := by
  cases hset : env.setFails b with
  | some msg => simp [iterFile, hset]
  | none =>
    cases hsave : env.saveFails b with
    | some msg => simp [iterFile, hset, hsave]
    | none => simp [iterFile, hset, hsave, hrm]

theorem fileOf_false (env : Env) :
    ∀ l : List String, (∀ b ∈ l, env.removeFails b = none) → fileOf env l false = false := by
  intro l
  induction l with
  | nil => intro _; rfl
  | cons b l ih =>
    intro h
    rw [fileOf, List.foldl_cons, iterFile_false env b (h b (by simp))]
    exact ih (fun b' hb' => h b' (by simp [hb']))

theorem iterFile_true {env : Env} {b : String} {f : Bool} (h : iterFile env b f = true) :
    f = true ∨ env.removeFails b ≠ none := by
  cases hset : env.setFails b with
  | some msg => simp [iterFile, hset] at h; exact Or.inl h
  | none =>
    cases hsave : env.saveFails b with
    | some msg => simp [iterFile, hset, hsave] at h; exact Or.inl h
    | none =>
      simp [iterFile, hset, hsave] at h
      exact Or.inr (Option.isSome_iff_ne_none.1 h)

theorem fileOf_true {env : Env} :
    ∀ {l : List String} {f : Bool}, fileOf env l f = true →
      f = true ∨ ∃ b, b ∈ l ∧ env.removeFails b ≠ none := by
  intro l
  induction l with
  | nil => intro f h; exact Or.inl h
  | cons b l ih =>
    intro f h
    rw [fileOf, List.foldl_cons] at h
    rcases ih h with h' | ⟨b', hb', hrm⟩
    · rcases iterFile_true h' with h'' | h''
      · exact Or.inl h''
      · exact Or.inr ⟨b, by simp, h''⟩
    · exact Or.inr ⟨b', by simp [hb'], hrm⟩

theorem iterActive_ok (env : Env) (b : String) (a : String) (h : env.setFails b = none) :
    iterActive env b a = b := by
  simp [iterActive, h]

theorem iterActive_fail (env : Env) (b : String) (a : String) (msg : String)
    (h : env.setFails b = some msg) :
    iterActive env b a = a := by
  simp [iterActive, h]

theorem activeOf_append (env : Env) (l1 l2 : List String) (a : String) :
    activeOf env (l1 ++ l2) a = activeOf env l2 (activeOf env l1 a) := by
  simp [activeOf, List.foldl_append]

theorem activeOf_all_fail (env : Env) :
    ∀ (l : List String) (a : String), (∀ b ∈ l, env.setFails b ≠ none) →
      activeOf env l a = a := by
  intro l
  induction l with
  | nil => intro a _; rfl
  | cons b l ih =>
    intro a h
    rw [activeOf, List.foldl_cons]
    have hb : env.setFails b ≠ none := h b (by simp)
    cases hset : env.setFails b with
    | none => exact absurd hset hb
    | some msg =>
      rw [iterActive_fail env b a msg hset]
      exact ih a (fun b' hb' => h b' (by simp [hb']))

theorem removalFollowsB_cons_not_ok {c : Call} {rest : List Call} (hc : isOkWrite c = false) :
    removalFollowsB (c :: rest) = removalFollowsB rest := by
  simp [removalFollowsB, hc]

theorem removalFollowsB_append {xs ys : List Call}
    (hx : removalFollowsB xs = true) (hy : removalFollowsB ys = true)
    (hlast : ∀ c, xs.getLast? = some c → isOkWrite c = false) :
    removalFollowsB (xs ++ ys) = true := by
  induction xs with
  | nil => simpa using hy
  | cons c xs ih =>
    cases xs with
    | nil =>
      have hc : isOkWrite c = false := hlast c rfl
      rw [List.cons_append, List.nil_append, removalFollowsB_cons_not_ok hc]
      exact hy
    | cons c2 xs' =>
      rw [removalFollowsB] at hx
      rw [List.cons_append, removalFollowsB]
      simp only [Bool.and_eq_true] at hx ⊢
      refine ⟨?_, ?_⟩
      · simpa using hx.1
      · exact ih hx.2 (fun c hc => hlast c (by rw [List.getLast?_cons_cons]; exact hc))

theorem removalFollowsB_iterCalls (env : Env) (b : String) :
    removalFollowsB (iterCalls env b) = true := by
  cases hset : env.setFails b with
  | some msg => simp [iterCalls, hset, removalFollowsB, isOkWrite]
  | none =>
    cases hsave : env.saveFails b with
    | some msg => simp [iterCalls, hset, hsave, removalFollowsB, isOkWrite]
    | none => simp [iterCalls, hset, hsave, removalFollowsB, isOkWrite, isRemoveCall]

theorem iterCalls_last_not_ok (env : Env) (b : String) :
    ∀ c, (iterCalls env b).getLast? = some c → isOkWrite c = false := by
  cases hset : env.setFails b with
  | some msg => intro c hc; simp [iterCalls, hset] at hc; subst hc; rfl
  | none =>
    cases hsave : env.saveFails b with
    | some msg => intro c hc; simp [iterCalls, hset, hsave] at hc; subst hc; rfl
    | none => intro c hc; simp [iterCalls, hset, hsave] at hc; subst hc; rfl

theorem removalFollowsB_callsOf_append (env : Env) :
    ∀ (l : List String) (ds : List Call), removalFollowsB ds = true →
      removalFollowsB (callsOf env l ++ ds) = true := by
  intro l
  induction l with
  | nil => intro ds hds; simpa [callsOf] using hds
  | cons b l ih =>
    intro ds hds
    rw [callsOf, List.append_assoc]
    exact removalFollowsB_append (removalFollowsB_iterCalls env b) (ih ds hds)
      (iterCalls_last_not_ok env b)

theorem removalFollowsB_directCalls (env : Env) :
    removalFollowsB (directCalls env) = true := by
  cases hsf : env.sfWriteFails with
  | some msg => simp [directCalls, hsf, removalFollowsB, isOkWrite]
  | none => simp [directCalls, hsf, removalFollowsB, isOkWrite, isRemoveCall]

theorem testingBackend_mem_iterLines (env : Env) (b : String) :
    Line.testingBackend b ∈ iterLines env b := by
  cases hset : env.setFails b with
  | some msg => simp [iterLines, hset]
  | none =>
    cases hsave : env.saveFails b with
    | some msg => simp [iterLines, hset, hsave]
    | none =>
      cases hrm : env.removeFails b with
      | some msg => simp [iterLines, hset, hsave, hrm]
      | none => simp [iterLines, hset, hsave, hrm]

theorem testingSoundfile_mem_directLines (env : Env) :
    Line.testingSoundfile ∈ directLines env := by
  cases hsf : env.sfWriteFails with
  | some msg => simp [directLines, hsf]
  | none =>
    cases hrm : env.sfRemoveFails with
    | some msg => simp [directLines, hsf, hrm]
    | none => simp [directLines, hsf, hrm]

theorem countP_preludeLines_outcome (env : Env) :
    (preludeLines env).countP isOutcomeLine = 0 := by
  simp [preludeLines, List.countP_cons, isOutcomeLine]

theorem countP_directLines_outcome (env : Env) :
    (directLines env).countP isOutcomeLine = 0 := by
  cases hsf : env.sfWriteFails with
  | some msg => simp [directLines, hsf, List.countP_cons, isOutcomeLine]
  | none =>
    cases hrm : env.sfRemoveFails with
    | some msg => simp [directLines, hsf, hrm, List.countP_cons, isOutcomeLine]
    | none => simp [directLines, hsf, hrm, List.countP_cons, isOutcomeLine]

theorem completed_not_mem_linesOf (env : Env) (l : List String) :
    Line.completed ∉ linesOf env l := by
  intro hmem
  obtain ⟨b, _, hx⟩ := mem_linesOf hmem
  rcases mem_iterLines hx with h | h | ⟨m, h⟩ <;> simp at h

/-! Concrete environments used as witnesses and counterexamples. -/

/-- All-success environment with the two backends of the spec's first
scenario. -/
def envOk : Env :=
  { backends := ["sox_io", "soundfile"], current := "sox_io",
    zerosFails := none, listFails := none, getFails := none,
    setFails := fun _ => none, saveFails := fun _ => none, removeFails := fun _ => none,
    sfWriteFails := none, sfRemoveFails := none }

/-- Environment where selection fails for the first backend and the removal
after a successful save fails for the second. -/
def envMix : Env :=
  { backends := ["alpha", "beta"], current := "alpha",
    zerosFails := none, listFails := none, getFails := none,
    setFails := fun b => if b = "alpha" then some "set boom" else none,
    saveFails := fun _ => none,
    removeFails := fun b => if b = "beta" then some "file locked" else none,
    sfWriteFails := none, sfRemoveFails := none }

/-- Environment where the direct soundfile write fails. -/
def envSfFail : Env :=
  { envOk with sfWriteFails := some "sf boom" }

/-- Environment where the removal after the successful direct write fails. -/
def envRmFail : Env :=
  { envOk with sfRemoveFails := some "remove denied" }

/-- Environment where buffer construction fails. -/
def envZerosFail : Env :=
  { envOk with zerosFails := some "numeric library unavailable" }

/-! Claim theorems. -/

/-- C1: for every backend identifier in the enumeration, a failure of
selection or of the write is caught by the inner handler, which prints
exactly one failure line naming the backend and the failure's message for
that iteration; every backend still gets its iteration, the direct soundfile
attempt is still reached, and no exception escapes: a per-backend failure is
never fatal to the probe. -/
theorem c1_per_backend_failure_isolated (env : Env) (h : Reaches env) :
    (∀ b msg, b ∈ env.backends → env.setFails b = some msg →
      iterLines env b = [Line.testingBackend b, Line.backendError b msg] ∧
      Line.backendError b msg ∈ (finalState env).out) ∧
    (∀ b msg, b ∈ env.backends → env.setFails b = none → env.saveFails b = some msg →
      iterLines env b = [Line.testingBackend b, Line.backendError b msg] ∧
      Line.backendError b msg ∈ (finalState env).out) ∧
    (∀ b, b ∈ env.backends → Line.testingBackend b ∈ (finalState env).out) ∧
    Line.testingSoundfile ∈ (finalState env).out ∧
    (runProbe env).2 = none := by
  obtain ⟨hshape, hesc⟩ := runProbe_reached env h
  have hout : (finalState env).out =
      preludeLines env ++ linesOf env env.backends ++ directLines env := by
    rw [hshape]
  have hloopmem : ∀ {b : String}, b ∈ env.backends → ∀ {x : Line},
      x ∈ iterLines env b → x ∈ (finalState env).out := by
    intro b hb x hx
    rw [hout]
    exact List.mem_append.2 (Or.inl (List.mem_append.2 (Or.inr (iterLines_mem_linesOf hb hx))))
  refine ⟨?_, ?_, ?_, ?_, hesc⟩
  · intro b msg hb hset
    have hlines : iterLines env b = [Line.testingBackend b, Line.backendError b msg] := by
      simp [iterLines, hset]
    exact ⟨hlines, hloopmem hb (by rw [hlines]; simp)⟩
  · intro b msg hb hset hsave
    have hlines : iterLines env b = [Line.testingBackend b, Line.backendError b msg] := by
      simp [iterLines, hset, hsave]
    exact ⟨hlines, hloopmem hb (by rw [hlines]; simp)⟩
  · intro b hb
    exact hloopmem hb (testingBackend_mem_iterLines env b)
  · rw [hout]
    exact List.mem_append.2 (Or.inr (testingSoundfile_mem_directLines env))

/-- C1 witness: at `envMix`, the selection failure for `alpha` is reported
with its message, `beta` is still probed, and the soundfile attempt runs. -/
theorem c1_witness :
    Reaches envMix ∧
    (iterLines envMix "alpha" =
      [Line.testingBackend "alpha", Line.backendError "alpha" "set boom"] ∧
      Line.backendError "alpha" "set boom" ∈ (finalState envMix).out) ∧
    Line.testingBackend "beta" ∈ (finalState envMix).out ∧
    Line.testingSoundfile ∈ (finalState envMix).out ∧
    (runProbe envMix).2 = none := by
  have h : Reaches envMix := ⟨rfl, rfl, rfl⟩
  obtain ⟨h1, _, h3, h4, h5⟩ := c1_per_backend_failure_isolated envMix h
  exact ⟨h, h1 "alpha" "set boom" (by decide) (by decide), h3 "beta" (by decide), h4, h5⟩

/-- C2 counterexample: at `envMix` the probe reports two backends but three
outcome lines: selection fails for `alpha` (so no write is ever attempted for
it, refuting "exactly one write"), and for `beta` the save succeeds but the
deletion raises inside the same inner `try`, so both the success line and a
failure line are printed for `beta` (refuting "exactly one outcome line" and
"exactly N outcome lines"). -/
theorem c2_counterexample :
    envMix.backends.length = 2 ∧
    (finalState envMix).out.countP isOutcomeLine = 3 ∧
    (iterCalls envMix "alpha").countP isSaveCall = 0 ∧
    Line.backendSuccess "beta" ∈ (finalState envMix).out ∧
    Line.backendError "beta" "file locked" ∈ (finalState envMix).out := by
  refine ⟨rfl, ?_, ?_, ?_, ?_⟩ <;> decide

/-- C2 (amended): each backend gets exactly one selection attempt; a write is
attempted exactly once when the selection succeeds and not at all when it
fails; and provided the per-backend deletion does not fail, exactly one
outcome line is printed per backend, hence exactly N outcome lines for N
available backends regardless of selection or write failures. -/
theorem c2_one_outcome_per_backend (env : Env) (h : Reaches env)
    (hrm : ∀ b ∈ env.backends, env.removeFails b = none) :
    (∀ b, b ∈ env.backends →
      (iterCalls env b).countP isSetCall = 1 ∧
      (iterCalls env b).countP isSaveCall = (if env.setFails b = none then 1 else 0) ∧
      (iterLines env b).countP isOutcomeLine = 1) ∧
    (finalState env).out.countP isOutcomeLine = env.backends.length := by
  obtain ⟨hshape, _⟩ := runProbe_reached env h
  have hout : (finalState env).out =
      preludeLines env ++ linesOf env env.backends ++ directLines env := by
    rw [hshape]
  constructor
  · intro b hb
    refine ⟨?_, ?_, countP_iterLines_outcome env b (hrm b hb)⟩
    · cases hset : env.setFails b with
      | some msg => simp [iterCalls, hset, List.countP_cons, isSetCall]
      | none =>
        cases hsave : env.saveFails b with
        | some msg => simp [iterCalls, hset, hsave, List.countP_cons, isSetCall]
        | none => simp [iterCalls, hset, hsave, List.countP_cons, isSetCall]
    · cases hset : env.setFails b with
      | some msg => simp [iterCalls, hset, List.countP_cons, isSaveCall]
      | none =>
        cases hsave : env.saveFails b with
        | some msg => simp [iterCalls, hset, hsave, List.countP_cons, isSaveCall]
        | none => simp [iterCalls, hset, hsave, List.countP_cons, isSaveCall]
  · rw [hout, List.countP_append, List.countP_append, countP_preludeLines_outcome,
      countP_directLines_outcome, countP_linesOf_outcome env env.backends hrm]
    simp

/-- C2 witness: at the all-success environment `envOk`, each of the two
backends gets one selection, one write and one outcome line, and exactly two
outcome lines are printed in total. -/
theorem c2_witness :
    Reaches envOk ∧ (∀ b ∈ envOk.backends, envOk.removeFails b = none) ∧
    ((iterCalls envOk "sox_io").countP isSetCall = 1 ∧
      (iterCalls envOk "sox_io").countP isSaveCall = 1 ∧
      (iterLines envOk "sox_io").countP isOutcomeLine = 1) ∧
    (finalState envOk).out.countP isOutcomeLine = envOk.backends.length := by
  have h : Reaches envOk := ⟨rfl, rfl, rfl⟩
  have hrm : ∀ b ∈ envOk.backends, envOk.removeFails b = none := fun b _ => rfl
  obtain ⟨h1, h2⟩ := c2_one_outcome_per_backend envOk h hrm
  obtain ⟨ha, hb, hc⟩ := h1 "sox_io" (by decide)
  exact ⟨h, hrm, ⟨ha, by simpa using hb, hc⟩, h2⟩

/-- C3: whenever the probe reaches the loop, the direct soundfile write is
recorded exactly once, strictly after every per-backend call, on the same
fixed filename, at the same rate, with the buffer transposed to the
sample-major shape 44100 x 2; this holds whatever the per-backend outcomes
were. -/
theorem c3_direct_write_once_after_loop (env : Env) (h : Reaches env) :
    ∃ post,
      (finalState env).calls =
        (preludeCalls ++ callsOf env env.backends) ++
          (Call.sfWrite test_file test_data.transpose sample_rate
            ((env.sfWriteFails).isNone) :: post) ∧
      (preludeCalls ++ callsOf env env.backends).countP isSfWriteCall = 0 ∧
      post.countP isSfWriteCall = 0 ∧
      test_data.transpose.rows = sample_rate ∧ test_data.transpose.cols = 2 := by
  obtain ⟨hshape, _⟩ := runProbe_reached env h
  have hcalls : (finalState env).calls =
      preludeCalls ++ callsOf env env.backends ++ directCalls env := by
    rw [hshape]
  have hpre : (preludeCalls ++ callsOf env env.backends).countP isSfWriteCall = 0 := by
    rw [List.countP_append, countP_callsOf_sfWrite]
    decide
  cases hsf : env.sfWriteFails with
  | some msg =>
    refine ⟨[], ?_, hpre, rfl, rfl, rfl⟩
    rw [hcalls]
    simp [directCalls, hsf]
  | none =>
    refine ⟨[Call.removeFile test_file ((env.sfRemoveFails).isNone)], ?_, hpre, rfl, rfl, rfl⟩
    rw [hcalls]
    simp [directCalls, hsf]

/-- C3 witness: at `envRmFail` the call trace splits around the single
successful soundfile write of the transposed buffer. -/
theorem c3_witness :
    Reaches envRmFail ∧
    ∃ post,
      (finalState envRmFail).calls =
        (preludeCalls ++ callsOf envRmFail envRmFail.backends) ++
          (Call.sfWrite test_file test_data.transpose sample_rate
            ((envRmFail.sfWriteFails).isNone) :: post) ∧
      (preludeCalls ++ callsOf envRmFail envRmFail.backends).countP isSfWriteCall = 0 ∧
      post.countP isSfWriteCall = 0 ∧
      test_data.transpose.rows = sample_rate ∧ test_data.transpose.cols = 2 :=
  ⟨⟨rfl, rfl, rfl⟩, c3_direct_write_once_after_loop envRmFail ⟨rfl, rfl, rfl⟩⟩

theorem countP_preludeLines_outerError (env : Env) :
    (preludeLines env).countP isOuterErrorLine = 0 := by
  simp [preludeLines, List.countP_cons, isOuterErrorLine]

/-- C4: a failure of the direct soundfile write is not handled in the loop's
inner handler: the run ends with the single outer error line carrying its
message, exactly one outer error line and exactly one direct write attempt
appear (no retry), and no exception escapes; the same outer boundary yields
the single error line when buffer construction, the backend enumeration
query, or the current-backend query fails. -/
theorem c4_outer_boundary (env : Env) :
    (∀ msg, Reaches env → env.sfWriteFails = some msg →
      (finalState env).out =
        preludeLines env ++ linesOf env env.backends ++
          [Line.testingSoundfile, Line.outerError msg] ∧
      (finalState env).out.countP isOuterErrorLine = 1 ∧
      (finalState env).calls.countP isSfWriteCall = 1 ∧
      (runProbe env).2 = none) ∧
    (∀ msg, env.zerosFails = some msg →
      (finalState env).out = [Line.header, Line.outerError msg] ∧ (runProbe env).2 = none) ∧
    (∀ msg, env.zerosFails = none → env.listFails = some msg →
      (finalState env).out = [Line.header, Line.outerError msg] ∧ (runProbe env).2 = none) ∧
    (∀ msg, env.zerosFails = none → env.listFails = none → env.getFails = some msg →
      (finalState env).out =
        [Line.header, Line.availableBackends env.backends, Line.outerError msg] ∧
      (runProbe env).2 = none) := by
  refine ⟨?_, ?_, ?_, ?_⟩
  · intro msg hre hsf
    obtain ⟨hshape, hesc⟩ := runProbe_reached env hre
    have hout : (finalState env).out =
        preludeLines env ++ linesOf env env.backends ++
          [Line.testingSoundfile, Line.outerError msg] := by
      rw [hshape]
      simp [directLines, hsf]
    have hcalls : (finalState env).calls =
        preludeCalls ++ callsOf env env.backends ++ directCalls env := by
      rw [hshape]
    refine ⟨hout, ?_, ?_, hesc⟩
    · rw [hout, List.countP_append, List.countP_append, countP_preludeLines_outerError,
        countP_linesOf_outerError]
      simp [List.countP_cons, isOuterErrorLine]
    · rw [hcalls, List.countP_append, List.countP_append, countP_callsOf_sfWrite]
      simp [directCalls, hsf, preludeCalls, List.countP_cons, isSfWriteCall]
  · intro msg hz
    exact (runProbe_zeros_fail env msg hz).imp (fun he => by rw [he]) id
  · intro msg hz hl
    exact (runProbe_list_fail env msg hz hl).imp (fun he => by rw [he]) id
  · intro msg hz hl hg
    exact (runProbe_get_fail env msg hz hl hg).imp (fun he => by rw [he]) id

/-- C4 witness: at `envSfFail` the direct write's failure ends the run with
the outer error line, one outer error line and one write attempt in total,
and the process does not crash. -/
theorem c4_witness :
    Reaches envSfFail ∧ envSfFail.sfWriteFails = some "sf boom" ∧
    ((finalState envSfFail).out =
      preludeLines envSfFail ++ linesOf envSfFail envSfFail.backends ++
        [Line.testingSoundfile, Line.outerError "sf boom"] ∧
    (finalState envSfFail).out.countP isOuterErrorLine = 1 ∧
    (finalState envSfFail).calls.countP isSfWriteCall = 1 ∧
    (runProbe envSfFail).2 = none) :=
  ⟨⟨rfl, rfl, rfl⟩, rfl,
    (c4_outer_boundary envSfFail).1 "sf boom" ⟨rfl, rfl, rfl⟩ rfl⟩

/-- Every library call of the run succeeds. -/
def AllOk (env : Env) : Prop :=
  Reaches env ∧
  (∀ b ∈ env.backends,
    env.setFails b = none ∧ env.saveFails b = none ∧ env.removeFails b = none) ∧
  env.sfWriteFails = none ∧ env.sfRemoveFails = none

/-- C5: every successful write call (per-backend or direct) is immediately
followed in the trace by a removal call, every removal call names the fixed
temporary file; on the all-success path the file does not exist at any
iteration boundary of the loop nor after the probe completes; and the file
can only remain at the end when some deletion itself failed. -/
theorem c5_temp_file_cleanup (env : Env) :
    removalFollowsB (finalState env).calls = true ∧
    (∀ f ok, Call.removeFile f ok ∈ (finalState env).calls → f = test_file) ∧
    (AllOk env →
      (∀ s : PState, s.fileExists = false → ∀ l1 l2, env.backends = l1 ++ l2 →
        (l1.foldl (fun s b => tryBackend env b s) s).fileExists = false) ∧
      (finalState env).fileExists = false) ∧
    ((finalState env).fileExists = true →
      env.sfRemoveFails ≠ none ∨ ∃ b, b ∈ env.backends ∧ env.removeFails b ≠ none) := by
  have hbetween : AllOk env → ∀ s : PState, s.fileExists = false →
      ∀ l1 l2, env.backends = l1 ++ l2 →
        (l1.foldl (fun s b => tryBackend env b s) s).fileExists = false := by
    intro hall s hs l1 l2 hsplit
    rw [loop_spec, hs]
    exact fileOf_false env l1 (fun b hb =>
      (hall.2.1 b (by rw [hsplit]; exact List.mem_append.2 (Or.inl hb))).2.2)
  cases hz : env.zerosFails with
  | some msg =>
    obtain ⟨hshape, _⟩ := runProbe_zeros_fail env msg hz
    have hcalls : (finalState env).calls = [] := by rw [hshape]
    have hfe : (finalState env).fileExists = false := by rw [hshape]
    refine ⟨by rw [hcalls]; rfl, ?_, fun hall => ⟨hbetween hall, hfe⟩, ?_⟩
    · intro f ok hmem
      rw [hcalls] at hmem
      simp at hmem
    · intro htrue
      rw [hfe] at htrue
      simp at htrue
  | none =>
  cases hl : env.listFails with
  | some msg =>
    obtain ⟨hshape, _⟩ := runProbe_list_fail env msg hz hl
    have hcalls : (finalState env).calls = [Call.constructBuffer test_data] := by rw [hshape]
    have hfe : (finalState env).fileExists = false := by rw [hshape]
    refine ⟨by rw [hcalls]; rfl, ?_, fun hall => ⟨hbetween hall, hfe⟩, ?_⟩
    · intro f ok hmem
      rw [hcalls] at hmem
      simp at hmem
    · intro htrue
      rw [hfe] at htrue
      simp at htrue
  | none =>
  cases hg : env.getFails with
  | some msg =>
    obtain ⟨hshape, _⟩ := runProbe_get_fail env msg hz hl hg
    have hcalls : (finalState env).calls =
        [Call.constructBuffer test_data, Call.listBackends] := by rw [hshape]
    have hfe : (finalState env).fileExists = false := by rw [hshape]
    refine ⟨by rw [hcalls]; rfl, ?_, fun hall => ⟨hbetween hall, hfe⟩, ?_⟩
    · intro f ok hmem
      rw [hcalls] at hmem
      simp at hmem
    · intro htrue
      rw [hfe] at htrue
      simp at htrue
  | none =>
  obtain ⟨hshape, _⟩ := runProbe_reached env ⟨hz, hl, hg⟩
  have hcalls : (finalState env).calls =
      preludeCalls ++ callsOf env env.backends ++ directCalls env := by
    rw [hshape]
  have hfe : (finalState env).fileExists =
      directFile env (fileOf env env.backends false) := by
    rw [hshape]
  refine ⟨?_, ?_, ?_, ?_⟩
  · rw [hcalls, List.append_assoc]
    refine removalFollowsB_append (by decide) ?_ ?_
    · exact removalFollowsB_callsOf_append env env.backends (directCalls env)
        (removalFollowsB_directCalls env)
    · intro c hc
      have hlast : preludeCalls.getLast? = some Call.listBackends := rfl
      rw [hlast] at hc
      injection hc with hc
      rw [← hc]
      rfl
  · intro f ok hmem
    rw [hcalls] at hmem
    rcases List.mem_append.1 hmem with hmem | hmem
    · rcases List.mem_append.1 hmem with hmem | hmem
      · simp [preludeCalls] at hmem
      · obtain ⟨b, _, hc⟩ := mem_callsOf hmem
        rcases mem_iterCalls hc with hcc | ⟨ok2, hcc⟩ | ⟨ok2, hcc⟩ <;>
          simp [Call.removeFile.injEq] at hcc
        exact hcc.1
    · cases hsf : env.sfWriteFails with
      | some m =>
        rw [directCalls] at hmem
        rw [hsf] at hmem
        simp at hmem
      | none =>
        rw [directCalls] at hmem
        rw [hsf] at hmem
        simp [Call.removeFile.injEq] at hmem
        exact hmem.1
  · intro hall
    refine ⟨hbetween hall, ?_⟩
    rw [hfe, fileOf_false env env.backends (fun b hb => (hall.2.1 b hb).2.2)]
    rw [directFile, hall.2.2.1, hall.2.2.2]
    rfl
  · intro htrue
    rw [hfe] at htrue
    cases hsf : env.sfWriteFails with
    | some m =>
      rw [directFile, hsf] at htrue
      rcases fileOf_true htrue with hfalse | ⟨b, hb, hrm⟩
      · simp at hfalse
      · exact Or.inr ⟨b, hb, hrm⟩
    | none =>
      rw [directFile, hsf] at htrue
      exact Or.inl (Option.isSome_iff_ne_none.1 htrue)

/-- C5 witness: at the all-success environment `envOk`, every successful
write is followed by a removal, every removal targets the fixed file, no
file exists at any loop boundary, and none remains at the end. -/
theorem c5_witness :
    AllOk envOk ∧
    removalFollowsB (finalState envOk).calls = true ∧
    (∀ s : PState, s.fileExists = false → ∀ l1 l2, envOk.backends = l1 ++ l2 →
      (l1.foldl (fun s b => tryBackend envOk b s) s).fileExists = false) ∧
    (finalState envOk).fileExists = false := by
  have hall : AllOk envOk :=
    ⟨⟨rfl, rfl, rfl⟩, fun b _ => ⟨rfl, rfl, rfl⟩, rfl, rfl⟩
  obtain ⟨h1, _, h3, _⟩ := c5_temp_file_cleanup envOk
  obtain ⟨h3a, h3b⟩ := h3 hall
  exact ⟨hall, h1, h3a, h3b⟩

/-- C6: the buffer is the two-dimensional zero array of shape 2 channels by
44100 samples (sample rate times one second) with floating-point dtype,
built from the fixed constants only; and it is constructed before any
backend enumeration call: whenever an enumeration call appears in the trace,
the trace starts with the buffer construction. -/
theorem c6_buffer_construction (env : Env) :
    test_data = torchZeros 2 sample_rate ∧
    test_data.rows = 2 ∧ test_data.cols = sample_rate * 1 ∧ sample_rate = 44100 ∧
    (∀ i j, test_data.entry i j = 0) ∧ test_data.dtype = DType.float32 ∧
    ((finalState env).calls = [] ∨
      ∃ rest, (finalState env).calls = Call.constructBuffer test_data :: rest) ∧
    (Call.listBackends ∈ (finalState env).calls →
      ∃ rest, (finalState env).calls = Call.constructBuffer test_data :: rest) := by
  have hshape : (finalState env).calls = [] ∨
      ∃ rest, (finalState env).calls = Call.constructBuffer test_data :: rest := by
    cases hz : env.zerosFails with
    | some msg => exact Or.inl (by rw [(runProbe_zeros_fail env msg hz).1])
    | none =>
      cases hl : env.listFails with
      | some msg => exact Or.inr ⟨[], by rw [(runProbe_list_fail env msg hz hl).1]⟩
      | none =>
        cases hg : env.getFails with
        | some msg =>
          exact Or.inr ⟨[Call.listBackends], by rw [(runProbe_get_fail env msg hz hl hg).1]⟩
        | none =>
          refine Or.inr ⟨[Call.listBackends, Call.getBackend, Call.listBackends] ++
            callsOf env env.backends ++ directCalls env, ?_⟩
          rw [(runProbe_reached env ⟨hz, hl, hg⟩).1]
          simp [preludeCalls]
  refine ⟨rfl, rfl, rfl, rfl, fun i j => rfl, rfl, hshape, ?_⟩
  intro hmem
  rcases hshape with hnil | hcons
  · rw [hnil] at hmem
    simp at hmem
  · exact hcons

/-- C6 witness: at `envOk` the trace starts with the construction of the
2 x 44100 zero buffer, before the first enumeration call. -/
theorem c6_witness :
    test_data.rows = 2 ∧ test_data.cols = sample_rate * 1 ∧
    (∃ rest, (finalState envOk).calls = Call.constructBuffer test_data :: rest) := by
  obtain ⟨_, h2, h3, _, _, _, _, h8⟩ := c6_buffer_construction envOk
  refine ⟨h2, h3, h8 ?_⟩
  rw [(runProbe_reached envOk ⟨rfl, rfl, rfl⟩).1]
  simp [preludeCalls]

/-- C7: no exception ever escapes the outer boundary and the process exit
code is 0 for every environment; when buffer construction fails, the output
is exactly the header and one outer error line, with no backend outcome or
testing lines at all. -/
theorem c7_no_uncaught_exception (env : Env) :
    (runProbe env).2 = none ∧ exitCode env = 0 ∧
    (∀ msg, env.zerosFails = some msg →
      (finalState env).out = [Line.header, Line.outerError msg] ∧
      (finalState env).out.countP isOutcomeLine = 0 ∧
      (∀ b, Line.testingBackend b ∉ (finalState env).out)) := by
  have hesc : (runProbe env).2 = none := by
    unfold runProbe
    cases hpb : probeBody env (initState env) with
    | mk s e => cases e <;> rfl
  refine ⟨hesc, by unfold exitCode; rw [hesc], ?_⟩
  intro msg hz
  obtain ⟨hshape, _⟩ := runProbe_zeros_fail env msg hz
  have hout : (finalState env).out = [Line.header, Line.outerError msg] := by
    rw [hshape]
  refine ⟨hout, by rw [hout]; rfl, ?_⟩
  intro b hb
  rw [hout] at hb
  simp at hb

/-- C7 witness: at `envZerosFail` the buffer construction failure yields the
single outer error line, no backend lines, and normal exit. -/
theorem c7_witness :
    envZerosFail.zerosFails = some "numeric library unavailable" ∧
    (runProbe envZerosFail).2 = none ∧ exitCode envZerosFail = 0 ∧
    ((finalState envZerosFail).out =
        [Line.header, Line.outerError "numeric library unavailable"] ∧
      (finalState envZerosFail).out.countP isOutcomeLine = 0 ∧
      (∀ b, Line.testingBackend b ∉ (finalState envZerosFail).out)) := by
  obtain ⟨h1, h2, h3⟩ := c7_no_uncaught_exception envZerosFail
  exact ⟨rfl, h1, h2, h3 "numeric library unavailable" rfl⟩

/-- C8: every per-backend save call in the trace carries exactly the original
zero buffer, the direct write carries exactly its transposed view (shape
44100 x 2, still all zeros), and transposition does not modify the original:
transposing back yields the buffer unchanged. -/
theorem c8_buffer_immutable (env : Env) :
    (∀ f d sr ok, Call.save f d sr ok ∈ (finalState env).calls →
      d = test_data ∧ f = test_file ∧ sr = sample_rate) ∧
    (∀ f d sr ok, Call.sfWrite f d sr ok ∈ (finalState env).calls →
      d = test_data.transpose ∧ f = test_file ∧ sr = sample_rate) ∧
    test_data.transpose.rows = sample_rate ∧ test_data.transpose.cols = 2 ∧
    (∀ i j, test_data.transpose.entry i j = 0) ∧
    test_data.transpose.transpose = test_data := by
  have hclass : ∀ c, c ∈ (finalState env).calls →
      c = Call.constructBuffer test_data ∨ c = Call.listBackends ∨ c = Call.getBackend ∨
      (∃ b, c = Call.setBackend b) ∨
      (∃ ok, c = Call.save test_file test_data sample_rate ok) ∨
      (∃ ok, c = Call.removeFile test_file ok) ∨
      (∃ ok, c = Call.sfWrite test_file test_data.transpose sample_rate ok) := by
    intro c hmem
    cases hz : env.zerosFails with
    | some msg =>
      rw [(runProbe_zeros_fail env msg hz).1] at hmem
      simp at hmem
    | none =>
    cases hl : env.listFails with
    | some msg =>
      rw [(runProbe_list_fail env msg hz hl).1] at hmem
      simp at hmem
      exact Or.inl hmem
    | none =>
    cases hg : env.getFails with
    | some msg =>
      rw [(runProbe_get_fail env msg hz hl hg).1] at hmem
      simp at hmem
      tauto
    | none =>
      rw [(runProbe_reached env ⟨hz, hl, hg⟩).1] at hmem
      simp only [] at hmem
      rcases List.mem_append.1 hmem with hmem | hmem
      · rcases List.mem_append.1 hmem with hmem | hmem
        · simp [preludeCalls] at hmem
          tauto
        · obtain ⟨b, _, hc⟩ := mem_callsOf hmem
          rcases mem_iterCalls hc with hcc | ⟨ok2, hcc⟩ | ⟨ok2, hcc⟩
          · exact Or.inr (Or.inr (Or.inr (Or.inl ⟨b, hcc⟩)))
          · exact Or.inr (Or.inr (Or.inr (Or.inr (Or.inl ⟨ok2, hcc⟩))))
          · exact Or.inr (Or.inr (Or.inr (Or.inr (Or.inr (Or.inl ⟨ok2, hcc⟩)))))
      · cases hsf : env.sfWriteFails with
        | some m =>
          rw [directCalls, hsf] at hmem
          simp at hmem
          exact Or.inr (Or.inr (Or.inr (Or.inr (Or.inr (Or.inr ⟨false, hmem⟩)))))
        | none =>
          rw [directCalls, hsf] at hmem
          simp at hmem
          rcases hmem with hmem | hmem
          · exact Or.inr (Or.inr (Or.inr (Or.inr (Or.inr (Or.inr ⟨true, hmem⟩)))))
          · exact Or.inr (Or.inr (Or.inr (Or.inr (Or.inr (Or.inl ⟨_, hmem⟩)))))
  refine ⟨?_, ?_, rfl, rfl, fun i j => rfl, rfl⟩
  · intro f d sr ok hmem
    rcases hclass _ hmem with h | h | h | ⟨b, h⟩ | ⟨ok2, h⟩ | ⟨ok2, h⟩ | ⟨ok2, h⟩ <;>
      simp [Call.save.injEq] at h
    exact ⟨h.2.1, h.1, h.2.2.1⟩
  · intro f d sr ok hmem
    rcases hclass _ hmem with h | h | h | ⟨b, h⟩ | ⟨ok2, h⟩ | ⟨ok2, h⟩ | ⟨ok2, h⟩ <;>
      simp [Call.sfWrite.injEq] at h
    exact ⟨h.2.1, h.1, h.2.2.1⟩

/-- C8 witness: at `envOk` the recorded direct write carries exactly the
transposed original buffer, whose entries are still all zero. -/
theorem c8_witness :
    (Call.sfWrite test_file test_data.transpose sample_rate true ∈ (finalState envOk).calls) ∧
    test_data.transpose.rows = sample_rate ∧
    (∀ i j, test_data.transpose.entry i j = 0) ∧
    test_data.transpose.transpose = test_data := by
  obtain ⟨_, h2, h3, _, h5, h6⟩ := c8_buffer_immutable envOk
  have hmem : Call.sfWrite test_file test_data.transpose sample_rate true ∈
      (finalState envOk).calls := by
    rw [(runProbe_reached envOk ⟨rfl, rfl, rfl⟩).1]
    refine List.mem_append.2 (Or.inr ?_)
    simp [directCalls, envOk]
  have := h2 test_file test_data.transpose sample_rate true hmem
  exact ⟨hmem, h3, h5, h6⟩

/-- C9: the loop permanently mutates the torchaudio backend state: after the
run the active backend is the fold of the selection outcomes over the
enumeration order, which is the initial current backend when every selection
failed, and the last successfully selected backend otherwise; nothing ever
restores the initial one. -/
theorem c9_active_backend_mutated (env : Env) (h : Reaches env) :
    (finalState env).active = activeOf env env.backends env.current ∧
    ((∀ b ∈ env.backends, env.setFails b ≠ none) → (finalState env).active = env.current) ∧
    (∀ l1 b l2, env.backends = l1 ++ b :: l2 → env.setFails b = none →
      (∀ b' ∈ l2, env.setFails b' ≠ none) → (finalState env).active = b) := by
  obtain ⟨hshape, _⟩ := runProbe_reached env h
  have hact : (finalState env).active = activeOf env env.backends env.current := by
    rw [hshape]
  refine ⟨hact, ?_, ?_⟩
  · intro hfail
    rw [hact, activeOf_all_fail env env.backends env.current hfail]
  · intro l1 b l2 hsplit hb hl2
    rw [hact, hsplit, activeOf_append]
    have h1 : activeOf env (b :: l2) (activeOf env l1 env.current) =
        activeOf env l2 (iterActive env b (activeOf env l1 env.current)) := rfl
    rw [h1, iterActive_ok env b _ hb]
    exact activeOf_all_fail env l2 b hl2

/-- C9 witness: at `envMix` the selection for `alpha` fails and the one for
`beta` succeeds, so the probe ends with `beta` as the active backend, not the
initial `alpha`. -/
theorem c9_witness :
    Reaches envMix ∧ envMix.current = "alpha" ∧
    (finalState envMix).active = "beta" := by
  obtain ⟨_, _, h3⟩ := c9_active_backend_mutated envMix ⟨rfl, rfl, rfl⟩
  refine ⟨⟨rfl, rfl, rfl⟩, rfl, h3 ["alpha"] "beta" [] rfl (by decide) ?_⟩
  intro b' hb'
  simp at hb'

/-- C10: the completion line is printed exactly when the probe reaches the
direct attempt and both the soundfile write and the final removal succeed;
when the removal fails after a successful direct write, the soundfile
success line is printed, the completion line is not, the outer boundary
prints the error line, and the temporary file remains on disk at exit. -/
theorem c10_completion_line (env : Env) :
    (Line.completed ∈ (finalState env).out ↔
      (Reaches env ∧ env.sfWriteFails = none ∧ env.sfRemoveFails = none)) ∧
    (∀ msg, Reaches env → env.sfWriteFails = none → env.sfRemoveFails = some msg →
      Line.soundfileSuccess ∈ (finalState env).out ∧
      Line.completed ∉ (finalState env).out ∧
      Line.outerError msg ∈ (finalState env).out ∧
      (finalState env).fileExists = true) := by
  constructor
  · constructor
    · intro hmem
      cases hz : env.zerosFails with
      | some msg =>
        rw [(runProbe_zeros_fail env msg hz).1] at hmem
        simp at hmem
      | none =>
      cases hl : env.listFails with
      | some msg =>
        rw [(runProbe_list_fail env msg hz hl).1] at hmem
        simp at hmem
      | none =>
      cases hg : env.getFails with
      | some msg =>
        rw [(runProbe_get_fail env msg hz hl hg).1] at hmem
        simp at hmem
      | none =>
        rw [(runProbe_reached env ⟨hz, hl, hg⟩).1] at hmem
        simp only [] at hmem
        rcases List.mem_append.1 hmem with hmem | hmem
        · rcases List.mem_append.1 hmem with hmem | hmem
          · simp [preludeLines] at hmem
          · exact absurd hmem (completed_not_mem_linesOf env env.backends)
        · cases hsf : env.sfWriteFails with
          | some m =>
            rw [directLines, hsf] at hmem
            simp at hmem
          | none =>
            cases hrm : env.sfRemoveFails with
            | some m =>
              rw [directLines, hsf, hrm] at hmem
              simp at hmem
            | none => exact ⟨⟨hz, hl, hg⟩, rfl, rfl⟩

    · intro ⟨hre, hsf, hrm⟩
      rw [(runProbe_reached env hre).1]
      simp only []
      refine List.mem_append.2 (Or.inr ?_)
      rw [directLines, hsf, hrm]
      simp
  · intro msg hre hsf hrm
    obtain ⟨hshape, _⟩ := runProbe_reached env hre
    have hout : (finalState env).out =
        preludeLines env ++ linesOf env env.backends ++
          [Line.testingSoundfile, Line.soundfileSuccess, Line.outerError msg] := by
      rw [hshape]
      simp [directLines, hsf, hrm]
    refine ⟨?_, ?_, ?_, ?_⟩
    · rw [hout]
      simp
    · intro hmem
      rw [hout] at hmem
      rcases List.mem_append.1 hmem with hmem | hmem
      · rcases List.mem_append.1 hmem with hmem | hmem
        · simp [preludeLines] at hmem
        · exact absurd hmem (completed_not_mem_linesOf env env.backends)
      · simp at hmem
    · rw [hout]
      simp
    · rw [hshape]
      simp [directFile, hsf, hrm]

/-- C10 witness: at `envRmFail` the direct write succeeds, the final removal
fails, the success line but not the completion line is printed, the outer
error line appears, and the file remains on disk. -/
theorem c10_witness :
    Reaches envRmFail ∧ envRmFail.sfWriteFails = none ∧
    envRmFail.sfRemoveFails = some "remove denied" ∧
    (Line.soundfileSuccess ∈ (finalState envRmFail).out ∧
      Line.completed ∉ (finalState envRmFail).out ∧
      Line.outerError "remove denied" ∈ (finalState envRmFail).out ∧
      (finalState envRmFail).fileExists = true) :=
  ⟨⟨rfl, rfl, rfl⟩, rfl, rfl,
    (c10_completion_line envRmFail).2 "remove denied" ⟨rfl, rfl, rfl⟩ rfl rfl⟩

end TestDemucs
